import Mathlib

/-!
Verification of the single-sphere ray tracer in `src/main.cpp`.

The C++ program is embedded shallowly: `double` arithmetic is idealised as
exact real arithmetic (`ℝ`), `float` likewise, and the byte stream written
by the BMP encoder is modelled as a `List ℕ` of byte values.  Fallible or
effectful pieces (the out-parameter of `Sphere::intersect`, the file the
encoder writes) are made explicit: `intersect` returns its boolean result
together with an `Option ℝ` recording whether and with which value the
out-parameter `t` was written, and the encoder returns the byte list.
-/

namespace RayTracer

noncomputable section

/-- Vector3 from the source: three `double` components, used as point,
direction or RGB colour. -/
structure Vector3 where
  x : ℝ
  y : ℝ
  z : ℝ

/-- Componentwise addition, `operator+` in the source. -/
instance : Add Vector3 :=
  ⟨fun a b => ⟨a.x + b.x, a.y + b.y, a.z + b.z⟩⟩

/-- Componentwise subtraction, `operator-` in the source. -/
instance : Sub Vector3 :=
  ⟨fun a b => ⟨a.x - b.x, a.y - b.y, a.z - b.z⟩⟩

/-- Scalar multiplication `v * t`, `operator*(double)` in the source. -/
instance : HMul Vector3 ℝ Vector3 :=
  ⟨fun v t => ⟨v.x * t, v.y * t, v.z * t⟩⟩

/-- Dot product, `Vector3::dot` in the source. -/
def Vector3.dot (a b : Vector3) : ℝ :=
  a.x * b.x + a.y * b.y + a.z * b.z

/-- Euclidean length, `Vector3::len` in the source. -/
def Vector3.len (v : Vector3) : ℝ :=
  Real.sqrt (v.x * v.x + v.y * v.y + v.z * v.z)

/-- Normalisation, `Vector3::normalize` in the source: divide each component
by the length (the source recomputes the length with the same formula). -/
def Vector3.normalize (v : Vector3) : Vector3 :=
  ⟨v.x / v.len, v.y / v.len, v.z / v.len⟩

/-- Ray from the source: an origin and a direction. -/
structure Ray where
  origin : Vector3
  direction : Vector3

/-- The `Ray::Ray` constructor from the source: it stores the origin verbatim
and the direction normalised. -/
def Ray.make (origin direction : Vector3) : Ray :=
  ⟨origin, direction.normalize⟩

/-- Light from the source: a position and a scalar intensity (a C++ `float`,
idealised as a real). -/
structure Light where
  pos : Vector3
  intensity : ℝ

/-- Sphere from the source: centre, radius, colour and albedo. -/
structure Sphere where
  center : Vector3
  radius : ℝ
  color : Vector3
  albedo : ℝ

/-- Local `a` of `Sphere::intersect`: `ray.direction.dot(ray.direction)`.
The sphere argument is kept so that all four quadratic quantities share one
signature. -/
def aCoeff (_s : Sphere) (r : Ray) : ℝ :=
  r.direction.dot r.direction

/-- Local `b` of `Sphere::intersect`: `2.0 * oc.dot(ray.direction)` with
`oc = ray.origin - center`. -/
def bCoeff (s : Sphere) (r : Ray) : ℝ :=
  2 * (r.origin - s.center).dot r.direction

/-- Local `c` of `Sphere::intersect`: `oc.dot(oc) - radius * radius`. -/
def cCoeff (s : Sphere) (r : Ray) : ℝ :=
  (r.origin - s.center).dot (r.origin - s.center) - s.radius * s.radius

/-- Local `delta` of `Sphere::intersect`: the discriminant `b*b - 4*a*c`. -/
def discrim (s : Sphere) (r : Ray) : ℝ :=
  bCoeff s r * bCoeff s r - 4 * aCoeff s r * cCoeff s r

/-- Local `t1` of `Sphere::intersect`: `(-b - sqrt(delta)) / (2.0 * a)`. -/
def root1 (s : Sphere) (r : Ray) : ℝ :=
  (-bCoeff s r - Real.sqrt (discrim s r)) / (2 * aCoeff s r)

/-- Local `t2` of `Sphere::intersect`: `(-b + sqrt(delta)) / (2.0 * a)`. -/
def root2 (s : Sphere) (r : Ray) : ℝ :=
  (-bCoeff s r + Real.sqrt (discrim s r)) / (2 * aCoeff s r)

/-- Sphere::intersect from the source.  The returned pair is the boolean
result together with the final state of the out-parameter `t`: `none` when
the `delta < 0` branch returns without touching `t`, and `some t` when the
other branch wrote `t` (which it does whether or not it then returns true). -/
def Sphere.intersect (s : Sphere) (r : Ray) : Bool × Option ℝ :=
  if discrim s r < 0 then
    (false, none)
  else
    let t := if root1 s r < root2 s r then root1 s r else root2 s r
    (decide (t > 0), some t)

/-- Background colour returned by `trace` on a miss. -/
def background : Vector3 := ⟨0.1, 0.1, 0.1⟩

/-- The `trace` function from the source: on a hit it shades the intersection
point with inverse-square attenuated diffuse lighting, on a miss it returns
the background colour. -/
def trace (ray : Ray) (sphere : Sphere) (light : Light) : Vector3 :=
  match sphere.intersect ray with
  | (true, some t) =>
      let intersection_point := ray.origin + ray.direction * t
      let normal := (intersection_point - sphere.center).normalize
      let light_dir := (light.pos - intersection_point).normalize
      let distance := (light.pos - intersection_point).len
      let cosine := max 0 (normal.dot light_dir)
      let L := light.intensity / (distance * distance)
      sphere.color * (sphere.albedo * L * cosine)
  | _ => background

/-! Scene constants from `main`, plus extra concrete rays and spheres used
as evaluation inputs for the theorems below. -/

/-- The scene sphere built in `main`: centre (0,0,-1), radius 0.5,
colour (1,0,0), albedo 1. -/
def mainSphere : Sphere := ⟨⟨0, 0, -1⟩, 0.5, ⟨1, 0, 0⟩, 1⟩

/-- The scene light built in `main`: position (1,1,0), intensity 1.5. -/
def mainLight : Light := ⟨⟨1, 1, 0⟩, 1.5⟩

/-- The axis ray of the scene: origin (0,0,0), direction (0,0,-1), as the
program constructs it. -/
def axisRay : Ray := Ray.make ⟨0, 0, 0⟩ ⟨0, 0, -1⟩

/-- A ray with origin (0,0,0) and (already unit) direction (0,0,-1). -/
def missRay : Ray := ⟨⟨0, 0, 0⟩, ⟨0, 0, -1⟩⟩

/-- A unit sphere far off the axis, missed by `missRay`. -/
def farSphere : Sphere := ⟨⟨10, 0, 0⟩, 1, ⟨1, 0, 0⟩, 1⟩

/-- A unit sphere centred at the origin; `missRay` starts inside it. -/
def originSphere : Sphere := ⟨⟨0, 0, 0⟩, 1, ⟨1, 0, 0⟩, 1⟩

/-! The BMP encoder, `writeBMP` and the two packed header structs of the
source.  Bytes are natural numbers below 256; multi-byte fields are
serialised little-endian, as writing the packed structs byte by byte does. -/

/-- Little-endian bytes of a 16-bit field. -/
def le16 (n : ℕ) : List ℕ :=
  [n % 256, n / 2 ^ 8 % 256]

/-- Little-endian bytes of a 32-bit field. -/
def le32 (n : ℕ) : List ℕ :=
  [n % 256, n / 2 ^ 8 % 256, n / 2 ^ 16 % 256, n / 2 ^ 24 % 256]

/-- Channel conversion of the encoder: `static_cast<uint8_t>(255.999 * c)`.
The narrowing cast is modelled as the floor taken modulo 256; for the
in-range components the claims exercise (`0 ≤ 255.999 * c < 256`) this is
exactly the C++ truncation. -/
def toByte (c : ℝ) : ℕ :=
  (⌊(255.999 : ℝ) * c⌋ % 256).toNat

/-- The three bytes the encoder writes for one pixel, in b, g, r order. -/
def pixelTriple (p : Vector3) : List ℕ :=
  [toByte p.z, toByte p.y, toByte p.x]

/-- The bytes of the inner loop of `writeBMP` for a fixed `j`: pixels
`framebuffer[j*width + i]` for `i = 0, …, width-1`, three bytes each. -/
def rowBytes (w : ℕ) (fb : List Vector3) (j : ℕ) : List ℕ :=
  (List.range w).flatMap fun i => pixelTriple (fb.getD (j * w + i) ⟨0, 0, 0⟩)

/-- The pixel-data bytes of `writeBMP`: the outer loop runs `j` from
`height-1` down to `0`. -/
def pixelDataBytes (w h : ℕ) (fb : List Vector3) : List ℕ :=
  (List.range h).reverse.flatMap (rowBytes w fb)

/-- BMPHeader from the source (packed, so 14 bytes on disk). -/
structure BMPHeader where
  fileType : ℕ
  fileSize : ℕ
  reserved1 : ℕ
  reserved2 : ℕ
  offsetData : ℕ

/-- Serialisation of the packed `BMPHeader` struct. -/
def BMPHeader.bytes (hd : BMPHeader) : List ℕ :=
  le16 hd.fileType ++ le32 hd.fileSize ++ le16 hd.reserved1 ++
    le16 hd.reserved2 ++ le32 hd.offsetData

/-- BMPInfoHeader from the source (packed, so 40 bytes on disk). -/
structure BMPInfoHeader where
  size : ℕ
  width : ℕ
  height : ℕ
  planes : ℕ
  bitCount : ℕ
  compression : ℕ
  sizeImage : ℕ
  xPixelsPerMeter : ℕ
  yPixelsPerMeter : ℕ
  colorsUsed : ℕ
  colorsImportant : ℕ

/-- Serialisation of the packed `BMPInfoHeader` struct (width and height are
`int32_t` in the source; the program only stores the positive constants 800
and 600, so they are modelled as naturals). -/
def BMPInfoHeader.bytes (ih : BMPInfoHeader) : List ℕ :=
  le32 ih.size ++ le32 ih.width ++ le32 ih.height ++ le16 ih.planes ++
    le16 ih.bitCount ++ le32 ih.compression ++ le32 ih.sizeImage ++
    le32 ih.xPixelsPerMeter ++ le32 ih.yPixelsPerMeter ++
    le32 ih.colorsUsed ++ le32 ih.colorsImportant

/-- The file header as `writeBMP` fills it: default member initialisers plus
`fileSize = sizeof(BMPHeader) + sizeof(BMPInfoHeader) + width*height*3`,
with the two packed sizes being 14 and 40. -/
def headerFor (w h : ℕ) : BMPHeader :=
  ⟨0x4D42, 14 + 40 + w * h * 3, 0, 0, 54⟩

/-- The info header as `writeBMP` fills it: default member initialisers plus
the width and height assignments. -/
def infoHeaderFor (w h : ℕ) : BMPInfoHeader :=
  ⟨40, w, h, 1, 24, 0, 0, 0, 0, 0, 0⟩

/-- writeBMP from the source, as the byte stream it writes to the file:
both packed headers followed by the pixel data, bottom row group first. -/
def writeBMP (w h : ℕ) (fb : List Vector3) : List ℕ :=
  (headerFor w h).bytes ++ (infoHeaderFor w h).bytes ++ pixelDataBytes w h fb

/-- A framebuffer of `w*h` white pixels (1,1,1). -/
def whiteBuffer (w h : ℕ) : List Vector3 :=
  List.replicate (w * h) ⟨1, 1, 1⟩

/-! The camera/viewport sampler and driver constants from `main`. -/

/-- Image width constant of `main`. -/
def imageWidth : ℕ := 800

/-- Image height constant of `main`. -/
def imageHeight : ℕ := 600

/-- The camera origin of `main`. -/
def camera : Vector3 := ⟨0, 0, 0⟩

/-- Viewport height constant of `main`. -/
def viewport_height : ℝ := 2.0

/-- Viewport width of `main`: `(double)width / height * viewport_height`. -/
def viewport_width : ℝ := (imageWidth : ℝ) / (imageHeight : ℝ) * viewport_height

/-- Focal length constant of `main`. -/
def focal_length : ℝ := 1.0

/-- Horizontal viewport extent of `main`. -/
def horizontal : Vector3 := ⟨viewport_width, 0, 0⟩

/-- Vertical viewport extent of `main`. -/
def vertical : Vector3 := ⟨0, viewport_height, 0⟩

/-- Lower-left viewport corner of `main`:
`camera - horizontal*0.5 - vertical*0.5 - Vector3(0,0,focal_length)`. -/
def lower_left_corner : Vector3 :=
  camera - horizontal * (0.5 : ℝ) - vertical * (0.5 : ℝ) - ⟨0, 0, focal_length⟩

/-- Horizontal pixel parameter of `main`: `(double)i / (width - 1)`. -/
def pixelU (i : ℕ) : ℝ := (i : ℝ) / ((imageWidth - 1 : ℕ) : ℝ)

/-- Vertical pixel parameter of `main`: `(double)j / (height - 1)`. -/
def pixelV (j : ℕ) : ℝ := (j : ℝ) / ((imageHeight - 1 : ℕ) : ℝ)

/-- The raw (pre-normalisation) ray direction `main` passes to the `Ray`
constructor: `lower_left_corner + horizontal*u + vertical*v - camera`. -/
def rawDir (i j : ℕ) : Vector3 :=
  lower_left_corner + horizontal * pixelU i + vertical * pixelV j - camera

/-- The per-pixel ray of `main`. -/
def pixelRay (i j : ℕ) : Ray := Ray.make camera (rawDir i j)

/-- The colour `main` stores at `framebuffer[j*width + i]`. -/
def renderPixel (i j : ℕ) : Vector3 :=
  trace (pixelRay i j) mainSphere mainLight

end

/-! Component-unfolding lemmas for the vector operations. -/

@[simp] theorem Vector3.add_def (a b : Vector3) :
    a + b = ⟨a.x + b.x, a.y + b.y, a.z + b.z⟩ := rfl

@[simp] theorem Vector3.sub_def (a b : Vector3) :
    a - b = ⟨a.x - b.x, a.y - b.y, a.z - b.z⟩ := rfl

@[simp] theorem Vector3.smul_def (v : Vector3) (t : ℝ) :
    v * t = ⟨v.x * t, v.y * t, v.z * t⟩ := rfl

/-! Helper lemmas about the intersection routine. -/

/-- When the discriminant is negative, `intersect` returns false and leaves
the out-parameter untouched. -/
theorem intersect_of_discrim_neg {s : Sphere} {r : Ray}
    (h : discrim s r < 0) : s.intersect r = (false, none) := by
  simp [Sphere.intersect, h]

/-- The branch taken when the discriminant is non-negative: the candidate is
the smaller root, the boolean result is its positivity, and the out-parameter
is written. -/
theorem intersect_of_discrim_nonneg {s : Sphere} {r : Ray}
    (h : 0 ≤ discrim s r) :
    s.intersect r =
      (decide (0 < min (root1 s r) (root2 s r)),
       some (min (root1 s r) (root2 s r))) := by
  have hmin : (if root1 s r < root2 s r then root1 s r else root2 s r)
      = min (root1 s r) (root2 s r) := by
    split_ifs with hlt
    · exact (min_eq_left hlt.le).symm
    · exact (min_eq_right (not_lt.mp hlt)).symm
  simp only [Sphere.intersect, not_lt.mpr h, if_false, hmin]

/-- Normalising the vector (0,0,-1) leaves it unchanged. -/
theorem normalize_unitZneg :
    (Vector3.mk 0 0 (-1)).normalize = ⟨0, 0, -1⟩ := by
  have hlen : (Vector3.mk 0 0 (-1)).len = 1 := by
    simp [Vector3.len]
  simp [Vector3.normalize, hlen]

/-- On the scene sphere, the axis ray hits at parameter 1/2. -/
theorem intersect_axis_hit :
    mainSphere.intersect axisRay = (true, some (1 / 2)) := by
  have hray : axisRay = ⟨⟨0, 0, 0⟩, ⟨0, 0, -1⟩⟩ := by
    simp [axisRay, Ray.make, normalize_unitZneg]
  have ha : aCoeff mainSphere axisRay = 1 := by
    simp [aCoeff, hray, mainSphere, Vector3.dot]
  have hb : bCoeff mainSphere axisRay = -2 := by
    simp [bCoeff, hray, mainSphere, Vector3.dot]
  have hc : cCoeff mainSphere axisRay = 3 / 4 := by
    simp [cCoeff, hray, mainSphere, Vector3.dot]; norm_num
  have hd : discrim mainSphere axisRay = 1 := by
    simp [discrim, ha, hb, hc]; norm_num
  have h1 : root1 mainSphere axisRay = 1 / 2 := by
    simp [root1, ha, hb, hd, Real.sqrt_one]
    norm_num
  have h2 : root2 mainSphere axisRay = 3 / 2 := by
    simp [root2, ha, hb, hd, Real.sqrt_one]
    norm_num
  rw [intersect_of_discrim_nonneg (by rw [hd]; norm_num), h1, h2]
  norm_num

/-- C8: for the ray with origin (0,0,0) and direction (0,0,-1) against the
sphere with centre (0,0,-1) and radius 0.5, the intersection routine reports
a hit with `t = 0.5`, the analytically nearest positive root. -/
theorem intersect_axis_ray_t_half :
    mainSphere.intersect (Ray.make ⟨0, 0, 0⟩ ⟨0, 0, -1⟩) = (true, some 0.5) := by
  have := intersect_axis_hit
  rw [show (0.5 : ℝ) = 1 / 2 by norm_num]
  exact this

/-! Concrete evaluations of the quadratic data on the two auxiliary
scenes, used by the witnesses below. -/

/-- The square root of 4 is 2. -/
theorem sqrt_four : Real.sqrt 4 = 2 := by
  rw [show (4 : ℝ) = 2 ^ 2 by norm_num, Real.sqrt_sq (by norm_num : (0:ℝ) ≤ 2)]

/-- The discriminant of `missRay` against `farSphere` is negative. -/
theorem discrim_far : discrim farSphere missRay = -396 := by
  norm_num [discrim, aCoeff, bCoeff, cCoeff, farSphere, missRay, Vector3.dot]

/-- The discriminant of `missRay` against `originSphere` is 4. -/
theorem discrim_origin : discrim originSphere missRay = 4 := by
  norm_num [discrim, aCoeff, bCoeff, cCoeff, originSphere, missRay, Vector3.dot]

/-- The direction of `missRay` has unit dot-square against `originSphere`. -/
theorem aCoeff_origin : aCoeff originSphere missRay = 1 := by
  norm_num [aCoeff, originSphere, missRay, Vector3.dot]

/-- The linear coefficient of `missRay` against `originSphere` is 0. -/
theorem bCoeff_origin : bCoeff originSphere missRay = 0 := by
  norm_num [bCoeff, originSphere, missRay, Vector3.dot]

/-- The smaller quadratic root for `missRay` inside `originSphere` is -1. -/
theorem root1_origin : root1 originSphere missRay = -1 := by
  unfold root1
  rw [aCoeff_origin, bCoeff_origin, discrim_origin, sqrt_four]
  norm_num

/-- The larger quadratic root for `missRay` inside `originSphere` is 1. -/
theorem root2_origin : root2 originSphere missRay = 1 := by
  unfold root2
  rw [aCoeff_origin, bCoeff_origin, discrim_origin, sqrt_four]
  norm_num

/-- C1: the intersection routine reports no hit when the discriminant is
negative; otherwise it selects the smaller of the two quadratic roots and
reports a hit exactly when that root is positive — in particular, when the
smaller root is non-positive while the larger is positive (origin inside the
sphere or on its boundary), it reports no hit. -/
theorem intersect_root_selection (s : Sphere) (r : Ray) :
    (discrim s r < 0 → s.intersect r = (false, none)) ∧
    (0 ≤ discrim s r →
      s.intersect r =
        (decide (0 < min (root1 s r) (root2 s r)),
         some (min (root1 s r) (root2 s r)))) ∧
    (0 ≤ discrim s r → min (root1 s r) (root2 s r) ≤ 0 →
      0 < max (root1 s r) (root2 s r) → (s.intersect r).1 = false) := by
  refine ⟨fun h => intersect_of_discrim_neg h,
          fun h => intersect_of_discrim_nonneg h,
          fun h hmin _hmax => ?_⟩
  rw [intersect_of_discrim_nonneg h]
  have hnot : ¬(0 < min (root1 s r) (root2 s r)) := not_lt.mpr hmin
  simp [hnot]

/-- Witness for C1: a far sphere gives a negative discriminant and a clean
miss, and a ray starting inside the unit sphere has roots -1 and 1 yet is
reported as a miss. -/
theorem intersect_root_selection_witness :
    discrim farSphere missRay < 0 ∧
    farSphere.intersect missRay = (false, none) ∧
    0 ≤ discrim originSphere missRay ∧
    min (root1 originSphere missRay) (root2 originSphere missRay) ≤ 0 ∧
    0 < max (root1 originSphere missRay) (root2 originSphere missRay) ∧
    (originSphere.intersect missRay).1 = false := by
  refine ⟨by rw [discrim_far]; norm_num,
          (intersect_root_selection farSphere missRay).1
            (by rw [discrim_far]; norm_num),
          by rw [discrim_origin]; norm_num,
          by rw [root1_origin, root2_origin]; norm_num,
          by rw [root1_origin, root2_origin]; norm_num,
          (intersect_root_selection originSphere missRay).2.2
            (by rw [discrim_origin]; norm_num)
            (by rw [root1_origin, root2_origin]; norm_num)
            (by rw [root1_origin, root2_origin]; norm_num)⟩

/-- C10: the out-parameter `t` is written exactly when the discriminant is
non-negative: a negative discriminant returns false leaving `t` untouched,
while a non-negative discriminant writes the smaller root into `t` even when
the routine returns false, so a caller can observe a modified `t` on a miss. -/
theorem intersect_out_param (s : Sphere) (r : Ray) :
    (discrim s r < 0 → s.intersect r = (false, none)) ∧
    (0 ≤ discrim s r →
      (s.intersect r).2 = some (min (root1 s r) (root2 s r))) ∧
    (0 ≤ discrim s r → min (root1 s r) (root2 s r) ≤ 0 →
      s.intersect r = (false, some (min (root1 s r) (root2 s r)))) := by
  refine ⟨fun h => intersect_of_discrim_neg h,
          fun h => by rw [intersect_of_discrim_nonneg h],
          fun h hmin => ?_⟩
  rw [intersect_of_discrim_nonneg h]
  have hnot : ¬(0 < min (root1 s r) (root2 s r)) := not_lt.mpr hmin
  simp [hnot]

/-- Witness for C10: the far sphere leaves `t` unwritten, while the
inside-the-sphere ray yields a reported miss together with `t = -1`. -/
theorem intersect_out_param_witness :
    discrim farSphere missRay < 0 ∧
    farSphere.intersect missRay = (false, none) ∧
    0 ≤ discrim originSphere missRay ∧
    originSphere.intersect missRay = (false, some (-1)) := by
  have h3 := (intersect_out_param originSphere missRay).2.2
    (by rw [discrim_origin]; norm_num)
    (by rw [root1_origin, root2_origin]; norm_num)
  rw [root1_origin, root2_origin] at h3
  norm_num at h3
  exact ⟨by rw [discrim_far]; norm_num,
         (intersect_out_param farSphere missRay).1 (by rw [discrim_far]; norm_num),
         by rw [discrim_origin]; norm_num,
         h3⟩

/-- C9: `trace` is deterministic — identical ray, sphere and light inputs
produce identical colours. -/
theorem trace_deterministic (r₁ s₁ l₁ r₂ s₂ l₂ : _)
    (hr : r₁ = r₂) (hs : s₁ = s₂) (hl : l₁ = l₂) :
    trace r₁ s₁ l₁ = trace r₂ s₂ l₂ := by
  rw [hr, hs, hl]

/-- Witness for C9 at the default scene. -/
theorem trace_deterministic_witness :
    axisRay = axisRay ∧
    trace axisRay mainSphere mainLight = trace axisRay mainSphere mainLight :=
  ⟨rfl, trace_deterministic axisRay mainSphere mainLight axisRay mainSphere
    mainLight rfl rfl rfl⟩

/-- C3: whenever the intersection routine reports a miss, `trace` returns the
background colour (0.1, 0.1, 0.1); in particular a unit-direction ray whose
squared closest approach to the centre exceeds the squared radius misses and
gets the background colour. -/
theorem trace_miss_background (r : Ray) (s : Sphere) (l : Light) :
    ((s.intersect r).1 = false → trace r s l = ⟨0.1, 0.1, 0.1⟩) ∧
    (aCoeff s r = 1 →
      s.radius * s.radius <
        (r.origin - s.center).dot (r.origin - s.center) -
          ((r.origin - s.center).dot r.direction) ^ 2 →
      (s.intersect r).1 = false ∧ trace r s l = ⟨0.1, 0.1, 0.1⟩) := by
  have miss : (s.intersect r).1 = false → trace r s l = ⟨0.1, 0.1, 0.1⟩ := by
    intro hf
    rcases hI : s.intersect r with ⟨flag, topt⟩
    rw [hI] at hf
    simp only at hf
    subst hf
    cases topt <;> simp [trace, hI, background]
  refine ⟨miss, fun ha hdist => ?_⟩
  have hneg : discrim s r < 0 := by
    have hb : bCoeff s r = 2 * (r.origin - s.center).dot r.direction := rfl
    have hc : cCoeff s r =
        (r.origin - s.center).dot (r.origin - s.center) - s.radius * s.radius := rfl
    unfold discrim
    rw [ha, hb, hc]
    nlinarith [hdist]
  have hfalse : (s.intersect r).1 = false := by
    rw [intersect_of_discrim_neg hneg]
  exact ⟨hfalse, miss hfalse⟩

/-- Witness for C3: `missRay` passes 10 units from the centre of the unit
sphere `farSphere` and traces to the background colour. -/
theorem trace_miss_background_witness :
    aCoeff farSphere missRay = 1 ∧
    farSphere.radius * farSphere.radius <
      (missRay.origin - farSphere.center).dot (missRay.origin - farSphere.center) -
        ((missRay.origin - farSphere.center).dot missRay.direction) ^ 2 ∧
    (farSphere.intersect missRay).1 = false ∧
    trace missRay farSphere mainLight = ⟨0.1, 0.1, 0.1⟩ := by
  have ha : aCoeff farSphere missRay = 1 := by
    norm_num [aCoeff, farSphere, missRay, Vector3.dot]
  have hdist : farSphere.radius * farSphere.radius <
      (missRay.origin - farSphere.center).dot (missRay.origin - farSphere.center) -
        ((missRay.origin - farSphere.center).dot missRay.direction) ^ 2 := by
    norm_num [farSphere, missRay, Vector3.dot]
  obtain ⟨h1, h2⟩ := (trace_miss_background missRay farSphere mainLight).2 ha hdist
  exact ⟨ha, hdist, h1, h2⟩

/-- C2: on a hit at distance `t`, `trace` returns exactly
`sphere.color * (albedo * L * cosθ)` with `p = origin + direction*t`,
`n = normalize(p - center)`, `ω = normalize(light.pos - p)`,
`d = |light.pos - p|`, `cosθ = max 0 (n·ω)` and `L = intensity / d²`. -/
theorem trace_hit_shading (r : Ray) (s : Sphere) (l : Light) (t : ℝ)
    (h : s.intersect r = (true, some t)) :
    trace r s l =
      s.color *
        (s.albedo *
          (l.intensity /
            ((l.pos - (r.origin + r.direction * t)).len *
             (l.pos - (r.origin + r.direction * t)).len)) *
          max 0 ((((r.origin + r.direction * t) - s.center).normalize).dot
                 ((l.pos - (r.origin + r.direction * t)).normalize))) := by
  unfold trace
  rw [h]

/-- Witness for C2: the axis ray hits the scene sphere at `t = 1/2` and the
shading formula applies there. -/
theorem trace_hit_shading_witness :
    mainSphere.intersect axisRay = (true, some (1 / 2)) ∧
    trace axisRay mainSphere mainLight =
      mainSphere.color *
        (mainSphere.albedo *
          (mainLight.intensity /
            ((mainLight.pos - (axisRay.origin + axisRay.direction * ((1 : ℝ) / 2))).len *
             (mainLight.pos - (axisRay.origin + axisRay.direction * ((1 : ℝ) / 2))).len)) *
          max 0 ((((axisRay.origin + axisRay.direction * ((1 : ℝ) / 2)) -
                    mainSphere.center).normalize).dot
                 ((mainLight.pos -
                    (axisRay.origin + axisRay.direction * ((1 : ℝ) / 2))).normalize))) :=
  ⟨intersect_axis_hit,
   trace_hit_shading axisRay mainSphere mainLight (1 / 2) intersect_axis_hit⟩

/-- Normalising a non-zero vector yields a unit-length vector. -/
theorem normalize_len_one {v : Vector3} (h : v ≠ ⟨0, 0, 0⟩) :
    v.normalize.len = 1 := by
  have h0 : v.x ≠ 0 ∨ v.y ≠ 0 ∨ v.z ≠ 0 := by
    by_contra hc
    push_neg at hc
    obtain ⟨hx, hy, hz⟩ := hc
    apply h
    cases v
    simp_all
  have hsq : 0 < v.x * v.x + v.y * v.y + v.z * v.z := by
    rcases h0 with hx | hy | hz
    · nlinarith [mul_self_nonneg v.y, mul_self_nonneg v.z, mul_self_pos.mpr hx]
    · nlinarith [mul_self_nonneg v.x, mul_self_nonneg v.z, mul_self_pos.mpr hy]
    · nlinarith [mul_self_nonneg v.x, mul_self_nonneg v.y, mul_self_pos.mpr hz]
  have hlen2 : v.len * v.len = v.x * v.x + v.y * v.y + v.z * v.z :=
    Real.mul_self_sqrt hsq.le
  have hne : v.x * v.x + v.y * v.y + v.z * v.z ≠ 0 := ne_of_gt hsq
  show Real.sqrt (v.x / v.len * (v.x / v.len) + v.y / v.len * (v.y / v.len) +
    v.z / v.len * (v.z / v.len)) = 1
  have harg : v.x / v.len * (v.x / v.len) + v.y / v.len * (v.y / v.len) +
      v.z / v.len * (v.z / v.len)
      = (v.x * v.x + v.y * v.y + v.z * v.z) / (v.len * v.len) := by
    ring
  rw [harg, hlen2, div_self hne, Real.sqrt_one]

/-- C6: the `Ray` constructor stores the origin verbatim and the normalised
input direction, which has unit length for any non-zero input direction. -/
theorem ray_construction_spec (o d : Vector3) (h : d ≠ ⟨0, 0, 0⟩) :
    (Ray.make o d).origin = o ∧
    (Ray.make o d).direction = d.normalize ∧
    (Ray.make o d).direction.len = 1 :=
  ⟨rfl, rfl, normalize_len_one h⟩

/-- Witness for C6 at origin (1,2,3) and direction (0,0,-1). -/
theorem ray_construction_spec_witness :
    (Vector3.mk 0 0 (-1)) ≠ (⟨0, 0, 0⟩ : Vector3) ∧
    (Ray.make ⟨1, 2, 3⟩ ⟨0, 0, -1⟩).origin = ⟨1, 2, 3⟩ ∧
    (Ray.make ⟨1, 2, 3⟩ ⟨0, 0, -1⟩).direction = (Vector3.mk 0 0 (-1)).normalize ∧
    (Ray.make ⟨1, 2, 3⟩ ⟨0, 0, -1⟩).direction.len = 1 := by
  have hne : (Vector3.mk 0 0 (-1)) ≠ (⟨0, 0, 0⟩ : Vector3) := by
    intro heq
    have := congrArg Vector3.z heq
    norm_num at this
  obtain ⟨h1, h2, h3⟩ := ray_construction_spec ⟨1, 2, 3⟩ ⟨0, 0, -1⟩ hne
  exact ⟨hne, h1, h2, h3⟩

/-! List lemmas for the encoder: flat maps whose pieces all have the same
length, dropped and measured. -/

/-- Length of a flat map whose pieces all have length `L`. -/
theorem flatMap_length_const (f : ℕ → List ℕ) (L : ℕ)
    (hf : ∀ x, (f x).length = L) :
    ∀ l : List ℕ, (l.flatMap f).length = l.length * L := by
  intro l
  induction l with
  | nil => simp
  | cons a tl ih =>
      rw [List.flatMap_cons, List.length_append, hf, ih, List.length_cons]
      ring

/-- Dropping `L * j` elements from a flat map whose pieces all have length
`L` lands exactly at the start of piece `j`. -/
theorem flatMap_drop_const (f : ℕ → List ℕ) (L : ℕ)
    (hf : ∀ x, (f x).length = L) :
    ∀ (l : List ℕ) (j : ℕ), j < l.length →
      ∃ rest, (l.flatMap f).drop (L * j) = f (l.getD j 0) ++ rest := by
  intro l
  induction l with
  | nil => intro j hj; simp at hj
  | cons a tl ih =>
      intro j hj
      cases j with
      | zero =>
          refine ⟨tl.flatMap f, ?_⟩
          rw [List.flatMap_cons]
          simp
      | succ j =>
          have hj' : j < tl.length := by simpa using hj
          obtain ⟨rest, hrest⟩ := ih j hj'
          refine ⟨rest, ?_⟩
          rw [List.flatMap_cons,
              show L * (j + 1) = (f a).length + L * j by rw [hf]; ring,
              List.drop_append, hrest]
          simp

/-- Each inner-loop row of the encoder contributes `w * 3` bytes. -/
theorem rowBytes_length (w : ℕ) (fb : List Vector3) (j : ℕ) :
    (rowBytes w fb j).length = w * 3 := by
  have := flatMap_length_const
    (fun i => pixelTriple (fb.getD (j * w + i) ⟨0, 0, 0⟩)) 3 (fun _ => rfl)
    (List.range w)
  simpa [rowBytes] using this

/-- The pixel data consists of `h * (w * 3)` bytes. -/
theorem pixelDataBytes_length (w h : ℕ) (fb : List Vector3) :
    (pixelDataBytes w h fb).length = h * (w * 3) := by
  have := flatMap_length_const (rowBytes w fb) (w * 3) (rowBytes_length w fb)
    (List.range h).reverse
  simpa [pixelDataBytes] using this

/-- The two serialised headers occupy 54 bytes. -/
theorem headerBytes_length (w h : ℕ) :
    ((headerFor w h).bytes ++ (infoHeaderFor w h).bytes).length = 54 := rfl

/-- Dropping past the 54 header bytes of the encoder output lands in the
pixel data. -/
theorem writeBMP_drop_header (w h : ℕ) (fb : List Vector3) (m : ℕ) :
    (writeBMP w h fb).drop (54 + m) = (pixelDataBytes w h fb).drop m := by
  rw [writeBMP,
      show 54 + m
        = ((headerFor w h).bytes ++ (infoHeaderFor w h).bytes).length + m by
        rw [headerBytes_length],
      List.drop_append]

/-- Byte offset `3 * (j*w + i)` of the pixel data holds the triple of the
pixel at column `i` of image row `h-1-j`: output rows appear bottom-to-top. -/
theorem pixelData_triple_at (w h : ℕ) (fb : List Vector3) (j i : ℕ)
    (hj : j < h) (hi : i < w) :
    ∃ rest, (pixelDataBytes w h fb).drop (3 * (j * w + i)) =
      pixelTriple (fb.getD ((h - 1 - j) * w + i) ⟨0, 0, 0⟩) ++ rest := by
  obtain ⟨r1, hr1⟩ := flatMap_drop_const (rowBytes w fb) (w * 3)
    (rowBytes_length w fb) (List.range h).reverse j (by simpa using hj)
  have hgetD : (List.range h).reverse.getD j 0 = h - 1 - j := by
    rw [List.getD_eq_getElem _ _ (by simpa using hj), List.getElem_reverse]
    simp
  rw [hgetD] at hr1
  obtain ⟨r2, hr2⟩ := flatMap_drop_const
    (fun i => pixelTriple (fb.getD ((h - 1 - j) * w + i) ⟨0, 0, 0⟩)) 3
    (fun _ => rfl) (List.range w) i (by simpa using hi)
  have hgetD2 : (List.range w).getD i 0 = i := by
    rw [List.getD_eq_getElem _ _ (by simpa using hi), List.getElem_range]
  rw [hgetD2] at hr2
  refine ⟨r2 ++ r1, ?_⟩
  unfold pixelDataBytes
  rw [show 3 * (j * w + i) = w * 3 * j + 3 * i by ring, ← List.drop_drop, hr1,
      List.drop_append_of_le_length (by rw [rowBytes_length]; omega),
      show rowBytes w fb (h - 1 - j)
        = (List.range w).flatMap
            (fun i => pixelTriple (fb.getD ((h - 1 - j) * w + i) ⟨0, 0, 0⟩))
        from rfl,
      hr2, List.append_assoc]

/-- C4: the encoder output is 54 header bytes plus `w*h*3` pixel bytes with
no row padding; the triple at offset `54 + 3*(j*w+i)` is the pixel of image
row `h-1-j`, column `i` (rows bottom-to-top), serialised as the
`floor(255.999·component)` bytes in blue, green, red order; consequently an
all-white buffer encodes to exact size `54 + w*h*3` with every triple
(255,255,255). -/
theorem writeBMP_layout (w h : ℕ) (fb : List Vector3) :
    (writeBMP w h fb).length = 54 + w * h * 3 ∧
    (∀ j i, j < h → i < w →
      ((writeBMP w h fb).drop (54 + 3 * (j * w + i))).take 3 =
        [toByte (fb.getD ((h - 1 - j) * w + i) ⟨0, 0, 0⟩).z,
         toByte (fb.getD ((h - 1 - j) * w + i) ⟨0, 0, 0⟩).y,
         toByte (fb.getD ((h - 1 - j) * w + i) ⟨0, 0, 0⟩).x]) ∧
    (∀ k, k < w * h →
      ((writeBMP w h (whiteBuffer w h)).drop (54 + 3 * k)).take 3 =
        [255, 255, 255]) := by
  have triple : ∀ (fb' : List Vector3) (j i : ℕ), j < h → i < w →
      ((writeBMP w h fb').drop (54 + 3 * (j * w + i))).take 3 =
        [toByte (fb'.getD ((h - 1 - j) * w + i) ⟨0, 0, 0⟩).z,
         toByte (fb'.getD ((h - 1 - j) * w + i) ⟨0, 0, 0⟩).y,
         toByte (fb'.getD ((h - 1 - j) * w + i) ⟨0, 0, 0⟩).x] := by
    intro fb' j i hj hi
    obtain ⟨rest, hrest⟩ := pixelData_triple_at w h fb' j i hj hi
    rw [writeBMP_drop_header, hrest]
    rfl
  refine ⟨?_, fun j i hj hi => triple fb j i hj hi, fun k hk => ?_⟩
  · rw [writeBMP, List.length_append, List.length_append,
        pixelDataBytes_length,
        show ((headerFor w h).bytes).length = 14 from rfl,
        show ((infoHeaderFor w h).bytes).length = 40 from rfl]
    ring
  · have hw : 0 < w := by
      rcases Nat.eq_zero_or_pos w with h0 | h0
      · subst h0; simp at hk
      · exact h0
    have hmod : k % w < w := Nat.mod_lt _ hw
    have hdiv : k / w < h := by
      rw [Nat.div_lt_iff_lt_mul hw]
      rw [Nat.mul_comm w h] at hk
      exact hk
    have hsum : k / w * w + k % w = k := by
      rw [Nat.mul_comm]
      exact Nat.div_add_mod k w
    have hthis := triple (whiteBuffer w h) (k / w) (k % w) hdiv hmod
    rw [hsum] at hthis
    have hh : 0 < h := lt_of_le_of_lt (Nat.zero_le _) hdiv
    have hidx : (h - 1 - k / w) * w + k % w < w * h := by
      have h1 : h - 1 - k / w ≤ h - 1 := Nat.sub_le _ _
      have h2 : (h - 1 - k / w) * w ≤ (h - 1) * w :=
        Nat.mul_le_mul_right _ h1
      have h3 : (h - 1) * w + w = h * w := by
        calc (h - 1) * w + w = (h - 1 + 1) * w := by ring
        _ = h * w := by rw [Nat.sub_add_cancel hh]
      calc (h - 1 - k / w) * w + k % w
          ≤ (h - 1) * w + k % w := Nat.add_le_add_right h2 _
        _ < (h - 1) * w + w := Nat.add_lt_add_left hmod _
        _ = h * w := h3
        _ = w * h := Nat.mul_comm _ _
    have hgetD : (whiteBuffer w h).getD ((h - 1 - k / w) * w + k % w) ⟨0, 0, 0⟩
        = ⟨1, 1, 1⟩ := by
      rw [whiteBuffer, List.getD_eq_getElem _ _ (by simpa using hidx),
          List.getElem_replicate]
    rw [hgetD] at hthis
    rw [hthis]
    norm_num [toByte]
    rfl

/-- Witness for C4 at a 1×1 all-white framebuffer. -/
theorem writeBMP_layout_witness :
    (writeBMP 1 1 (whiteBuffer 1 1)).length = 54 + 1 * 1 * 3 ∧
    ((writeBMP 1 1 (whiteBuffer 1 1)).drop (54 + 3 * (0 * 1 + 0))).take 3 =
      [toByte ((whiteBuffer 1 1).getD ((1 - 1 - 0) * 1 + 0) ⟨0, 0, 0⟩).z,
       toByte ((whiteBuffer 1 1).getD ((1 - 1 - 0) * 1 + 0) ⟨0, 0, 0⟩).y,
       toByte ((whiteBuffer 1 1).getD ((1 - 1 - 0) * 1 + 0) ⟨0, 0, 0⟩).x] ∧
    ((writeBMP 1 1 (whiteBuffer 1 1)).drop (54 + 3 * 0)).take 3 =
      [255, 255, 255] := by
  obtain ⟨hlen, htriple, hwhite⟩ := writeBMP_layout 1 1 (whiteBuffer 1 1)
  exact ⟨hlen, htriple 0 0 (by norm_num) (by norm_num), hwhite 0 (by norm_num)⟩

/-- C7: the encoder output starts with the packed 14-byte file header — the
magic bytes of 0x4D42 little-endian, the 4-byte total size
header+info+pixel data, two zero 2-byte reserved fields and the 4-byte
offset 54 — immediately followed by the packed 40-byte info header with
size 40, 4-byte width and height, planes 1, bit count 24, compression 0 and
zero image-size/density/palette/important fields, all little-endian with no
padding between fields. -/
theorem bmp_header_layout (w h : ℕ) (fb : List Vector3) :
    (writeBMP w h fb).take 54 =
      [0x42, 0x4D] ++ le32 (14 + 40 + w * h * 3) ++ [0, 0] ++ [0, 0] ++
        [54, 0, 0, 0] ++
        ([40, 0, 0, 0] ++ le32 w ++ le32 h ++ [1, 0] ++ [24, 0] ++
          [0, 0, 0, 0] ++ [0, 0, 0, 0] ++ [0, 0, 0, 0] ++ [0, 0, 0, 0] ++
          [0, 0, 0, 0] ++ [0, 0, 0, 0]) := by
  rw [writeBMP, List.take_left' (headerBytes_length w h)]
  norm_num [BMPHeader.bytes, BMPInfoHeader.bytes, headerFor, infoHeaderFor,
    le16, le32]

/-- Equality of the two ways of writing the horizontal pixel parameter. -/
theorem pixelU_eq (i : ℕ) : pixelU i = (i : ℝ) / ((imageWidth : ℝ) - 1) := by
  norm_num [pixelU, imageWidth]

/-- Equality of the two ways of writing the vertical pixel parameter. -/
theorem pixelV_eq (j : ℕ) : pixelV j = (j : ℝ) / ((imageHeight : ℝ) - 1) := by
  norm_num [pixelV, imageHeight]

/-- C5: each pixel (i,j) of the image is sampled at `u = i/(width-1)`,
`v = j/(height-1)`, producing a ray from the camera origin whose
pre-normalisation direction is
`lower_left_corner + horizontal·u + vertical·v - camera`, with viewport
height 2, viewport width matching the aspect ratio, focal length 1 and
`lower_left_corner = camera - horizontal/2 - vertical/2 - (0,0,focal)`. -/
theorem sampler_spec (i j : ℕ) (_hi : i < imageWidth) (_hj : j < imageHeight) :
    (pixelRay i j).origin = camera ∧
    rawDir i j =
      lower_left_corner + horizontal * ((i : ℝ) / ((imageWidth : ℝ) - 1)) +
        vertical * ((j : ℝ) / ((imageHeight : ℝ) - 1)) - camera ∧
    viewport_height = 2 ∧
    viewport_width = viewport_height * ((imageWidth : ℝ) / (imageHeight : ℝ)) ∧
    focal_length = 1 ∧
    lower_left_corner =
      camera - horizontal * ((1 : ℝ) / 2) - vertical * ((1 : ℝ) / 2) -
        ⟨0, 0, focal_length⟩ := by
  refine ⟨rfl, ?_, ?_, ?_, ?_, ?_⟩
  · rw [rawDir, pixelU_eq, pixelV_eq]
  · norm_num [viewport_height]
  · unfold viewport_width
    ring
  · norm_num [focal_length]
  · unfold lower_left_corner
    norm_num

/-- Witness for C5 at pixel (0, 0). -/
theorem sampler_spec_witness :
    (0 : ℕ) < imageWidth ∧ (0 : ℕ) < imageHeight ∧
    (pixelRay 0 0).origin = camera ∧
    rawDir 0 0 =
      lower_left_corner + horizontal * (((0 : ℕ) : ℝ) / ((imageWidth : ℝ) - 1)) +
        vertical * (((0 : ℕ) : ℝ) / ((imageHeight : ℝ) - 1)) - camera := by
  obtain ⟨h1, h2, _⟩ :=
    sampler_spec 0 0 (by norm_num [imageWidth]) (by norm_num [imageHeight])
  exact ⟨by norm_num [imageWidth], by norm_num [imageHeight], h1, h2⟩

end RayTracer
